import Mathlib

set_option autoImplicit false

/-!
Shallow embedding of the proliphix thermostat client (`proliphix/proliphix.py`).

The Python module is a thin OID-translation and caching layer:

* `OIDS` is a module-level dict from dotted OID strings to symbolic field names;
* `_get_oid` does a linear search of `OIDS` by value;
* `_all_oids` builds the bulk read query string;
* `PDP.update` posts the bulk query and folds the `&`-separated `key=value`
  response into the `self._data` cache;
* `PDP._set` resolves field names to OIDs and builds the form-encoded write body;
* the property accessors (`cur_temp`, `setback_heat`, `hvac_state`, `name`,
  `fan_state`) read `self._data` directly and convert.

Python dicts are modelled as insertion-ordered association lists (`Dict`),
Python values that can live in the cache as `PyVal` (`str` or `int`), Python
floats as exact rationals `ℚ`, and raised exceptions as `Except PyErr`.
HTTP side effects are modelled by their payloads: `update` is a function of the
response text, `_set` returns the POSTed body.
-/

namespace Proliphix

/-- Values the Python code stores in the `self._data` cache: the raw response
strings stored by `update`, and the `int(val * 10)` stored by the
`setback_heat` setter. -/
inductive PyVal where
  | str (s : String)
  | int (n : Int)
deriving DecidableEq, Repr

/-- Exceptions the modelled code can raise: `KeyError` from a dict subscript
with a missing key, `ValueError` from tuple unpacking or a failed numeric
conversion. -/
inductive PyErr where
  | keyError (k : String)
  | valueError
deriving DecidableEq, Repr

/-- Whether a cache value is a Python `str`. -/
def PyVal.isStr : PyVal → Bool
  | .str _ => true
  | .int _ => false

/-- Helper for `splitChar`: accumulates the current chunk (reversed) while
scanning the character list. -/
def splitListAux (c : Char) : List Char → List Char → List (List Char)
  | [], acc => [acc.reverse]
  | x :: xs, acc =>
    if x = c then acc.reverse :: splitListAux c xs [] else splitListAux c xs (x :: acc)

/-- Python `s.split(c)` for a single-character separator `c`: splits at every
occurrence, keeping empty chunks (`"".split(c) == ['']`). -/
def splitChar (c : Char) (s : String) : List String :=
  (splitListAux c s.toList []).map String.mk

/-- Python slicing `s[n:]`. -/
def strDrop (n : Nat) (s : String) : String :=
  String.mk (s.toList.drop n)

/-- Numeric value of a list of decimal digit characters, most significant first. -/
def natOfDigits (l : List Char) : Nat :=
  l.foldl (fun n c => n * 10 + (c.toNat - 48)) 0

/-- Whether every character of the list is a decimal digit. -/
def allDigits (l : List Char) : Bool :=
  l.all (fun c => c.isDigit)

/-- Python `float(s)` on a string, modelled over exact rationals: an optional
sign, then either a digit run or `digits.digits` with at least one digit
present.  Exotic float syntax (exponents, `inf`, `nan`, underscores,
surrounding whitespace) is not modelled; those inputs return `none`
(`ValueError`), and none of them occur in the protocol being modelled. -/
def parseFloat (s : String) : Option ℚ :=
  let signed : ℚ × List Char :=
    match s.toList with
    | '-' :: rest => (-1, rest)
    | '+' :: rest => (1, rest)
    | l => (1, l)
  match splitListAux '.' signed.2 [] with
  | [ip] =>
    if !ip.isEmpty && allDigits ip then some (signed.1 * natOfDigits ip) else none
  | [ip, fp] =>
    if (!ip.isEmpty || !fp.isEmpty) && allDigits ip && allDigits fp then
      some (signed.1 * ((natOfDigits ip : ℚ) + (natOfDigits fp : ℚ) / 10 ^ fp.length))
    else none
  | _ => none

/-- Python `int(s)` on a string: optional sign then a nonempty digit run;
anything else raises `ValueError` (modelled as `none`). -/
def parseInt (s : String) : Option Int :=
  match s.toList with
  | '-' :: rest =>
    if !rest.isEmpty && allDigits rest then some (-(natOfDigits rest : Int)) else none
  | '+' :: rest =>
    if !rest.isEmpty && allDigits rest then some ((natOfDigits rest : Int)) else none
  | l => if !l.isEmpty && allDigits l then some ((natOfDigits l : Int)) else none

/-- Python `float(v)` on a cache value: identity on ints, parse on strings. -/
def pyFloat : PyVal → Option ℚ
  | .int n => some (n : ℚ)
  | .str s => parseFloat s

/-- Python `int(v)` on a cache value: identity on ints, parse on strings. -/
def pyInt : PyVal → Option Int
  | .int n => some n
  | .str s => parseInt s

/-- Python `str(v)` on a cache value. -/
def pyStr : PyVal → String
  | .str s => s
  | .int n => toString n

/-- Python `int(q)` on a float value (modelled as an exact rational):
truncation toward zero. -/
def truncQ (q : ℚ) : Int :=
  Int.tdiv q.num q.den

/-- The module-level `OIDS` dict, in source insertion order: dotted OID
identifier to symbolic field name. -/
def OIDS : List (String × String) :=
  [("1.2", "DevName"),
   ("4.1.13", "AverageTemp"),
   ("4.1.4", "FanState"),
   ("4.1.5", "SetbackHeat"),
   ("4.1.6", "SetbackCool"),
   ("4.1.2", "HvacState"),
   ("4.1.11", "CurrentClass"),
   ("4.5.1", "Heat1Usage"),
   ("4.5.3", "Cool1Usage"),
   ("4.5.5", "FanUsage"),
   ("4.5.6", "LastUsageReset")]

/-- Python `OIDS.get(oid)`: dict lookup by key, `None` when absent. -/
def OIDS_get (oid : String) : Option String :=
  (OIDS.find? (fun p => p.1 == oid)).map Prod.snd

/-- The module function `_get_oid(name)`: linear search of `OIDS.items()` for
the first entry whose value equals `name`, returning its key, else `None`. -/
def _get_oid (nm : String) : Option String :=
  (OIDS.find? (fun p => p.2 == nm)).map Prod.fst

/-- The module function `_all_oids()`: `"&".join("OID" + x + "=" for x in OIDS)`. -/
def _all_oids : String :=
  String.intercalate "&" (OIDS.map (fun p => "OID" ++ p.1 ++ "="))

/-- Python dict with string keys and `PyVal` values, as an insertion-ordered
association list; this models both `self._data` and the `data` dict in `_set`. -/
abbrev Dict := List (String × PyVal)

/-- Python `d[k]` lookup returning `none` when the key is absent (the raising
subscript is modelled at each use site). -/
def dictGet (d : Dict) (k : String) : Option PyVal :=
  (d.find? (fun p => p.1 == k)).map Prod.snd

/-- Python `d[k] = v`: overwrite in place when the key is present (keeping its
position), else append. -/
def dictSet (d : Dict) (k : String) (v : PyVal) : Dict :=
  if d.any (fun p => p.1 == k) then
    d.map (fun p => if p.1 == k then (k, v) else p)
  else
    d ++ [(k, v)]

/-- Uppercase hexadecimal digit character for `n < 16`. -/
def hexDigit (n : Nat) : Char :=
  if n < 10 then Char.ofNat (48 + n) else Char.ofNat (55 + n)

/-- Percent-encoding `%XX` of one byte. -/
def percentByte (b : Nat) : List Char :=
  ['%', hexDigit (b / 16), hexDigit (b % 16)]

/-- UTF-8 byte sequence of a code point. -/
def utf8Bytes (n : Nat) : List Nat :=
  if n < 0x80 then [n]
  else if n < 0x800 then [0xC0 + n / 0x40, 0x80 + n % 0x40]
  else if n < 0x10000 then
    [0xE0 + n / 0x1000, 0x80 + n / 0x40 % 0x40, 0x80 + n % 0x40]
  else
    [0xF0 + n / 0x40000, 0x80 + n / 0x1000 % 0x40, 0x80 + n / 0x40 % 0x40, 0x80 + n % 0x40]

/-- Characters `urllib.parse.quote_plus` leaves unencoded by default:
alphanumerics and `_.-~`. -/
def isSafeChar (ch : Char) : Bool :=
  ch.isAlphanum || ch = '_' || ch = '.' || ch = '-' || ch = '~'

/-- Python `urllib.parse.quote_plus`: safe characters kept, space becomes `+`,
every other character percent-encoded byte by byte. -/
def quotePlus (s : String) : String :=
  String.mk (s.toList.foldr
    (fun ch acc =>
      if isSafeChar ch then ch :: acc
      else if ch = ' ' then '+' :: acc
      else (utf8Bytes ch.toNat).foldr (fun b a => percentByte b ++ a) acc)
    [])

/-- Python `urllib.parse.urlencode` on a dict: `&`-joined `key=value` tokens in
insertion order, keys and stringified values quoted with `quote_plus`. -/
def urlencode (d : Dict) : String :=
  String.intercalate "&" (d.map (fun kv => quotePlus kv.1 ++ "=" ++ quotePlus (pyStr kv.2)))

namespace PDP

/-- Loop body of `PDP.update` for one `&`-separated response chunk:
`if line:` skips falsy (empty) lines; `oid, value = line.split('=')` raises
`ValueError` unless the split yields exactly two parts; `OIDS.get(oid[3:])`
looks up the identifier with the first three characters stripped; a recognized
identifier stores the raw value string, an unrecognized one is ignored. -/
def processLine (c : Dict) (line : String) : Except PyErr Dict :=
  if line = "" then .ok c
  else
    match splitChar '=' line with
    | [oid, value] =>
      .ok (match OIDS_get (strDrop 3 oid) with
           | some const => dictSet c const (.str value)
           | none => c)
    | _ => .error .valueError

/-- The `for line in r.text.split('&')` loop of `PDP.update`: processes chunks
left to right, propagating the first raised exception. -/
def processLines (c : Dict) : List String → Except PyErr Dict
  | [] => .ok c
  | l :: ls =>
    match processLine c l with
    | .ok c2 => processLines c2 ls
    | .error e => .error e

/-- `PDP.update` as a function of the cache and the HTTP response text:
the network call itself is external, so the model takes `r.text` as input and
returns the new cache (or the raised exception). -/
def update (c : Dict) (respText : String) : Except PyErr Dict :=
  processLines c (splitChar '&' respText)

/-- The `data` dict built by `PDP._set` from the `kwargs` items: each name is
resolved with `_get_oid`; resolvable names store the value under key
`"OID" + oid`, unresolvable names are skipped. -/
def set_data (pairs : List (String × PyVal)) : Dict :=
  pairs.foldl
    (fun d kv =>
      match _get_oid kv.1 with
      | some oid => dictSet d ("OID" ++ oid) kv.2
      | none => d)
    []

/-- The body `PDP._set` posts to `http://<host>/pdp`:
`urlencode(data) + "&submit=Submit"`. -/
def set_body (pairs : List (String × PyVal)) : String :=
  urlencode (set_data pairs) ++ "&submit=Submit"

/-- The `cur_temp` property: `float(self._data['AverageTemp']) / 10`. -/
def cur_temp (c : Dict) : Except PyErr ℚ :=
  match dictGet c "AverageTemp" with
  | none => .error (.keyError "AverageTemp")
  | some v =>
    match pyFloat v with
    | some q => .ok (q / 10)
    | none => .error .valueError

/-- The `setback_heat` property getter: `float(self._data['SetbackHeat']) / 10`. -/
def setback_heat (c : Dict) : Except PyErr ℚ :=
  match dictGet c "SetbackHeat" with
  | none => .error (.keyError "SetbackHeat")
  | some v =>
    match pyFloat v with
    | some q => .ok (q / 10)
    | none => .error .valueError

/-- The `setback_heat` property setter: stores `int(val * 10)` in the cache and
calls `self._set(SetbackHeat=...)`; returns the new cache and the POSTed body. -/
def setback_heat_set (c : Dict) (val : ℚ) : Dict × String :=
  let n : Int := truncQ (val * 10)
  (dictSet c "SetbackHeat" (.int n), set_body [("SetbackHeat", .int n)])

/-- The `hvac_state` property: `int(self._data['HvacState'])`. -/
def hvac_state (c : Dict) : Except PyErr Int :=
  match dictGet c "HvacState" with
  | none => .error (.keyError "HvacState")
  | some v =>
    match pyInt v with
    | some n => .ok n
    | none => .error .valueError

/-- The `name` property: `self._data['DevName']`, returned raw. -/
def name (c : Dict) : Except PyErr PyVal :=
  match dictGet c "DevName" with
  | none => .error (.keyError "DevName")
  | some v => .ok v

/-- The `fan_state` property: `"On"` when `self._data['FanState'] == "2"`,
else `"Off"`.  A Python `==` between an `int` cache value and the string `"2"`
is `False`, which `PyVal` equality models. -/
def fan_state (c : Dict) : Except PyErr String :=
  match dictGet c "FanState" with
  | none => .error (.keyError "FanState")
  | some v => .ok (if v = .str "2" then "On" else "Off")

end PDP

/-! Helper lemmas about the dict and string-splitting models. -/

deriving instance DecidableEq for Except

theorem mk_toList (s : String) : String.mk s.toList = s := by
  cases s
  rfl

theorem toList_append (a b : String) : (a ++ b).toList = a.toList ++ b.toList := by
  simp [String.toList]

theorem splitListAux_of_not_mem (c : Char) :
    ∀ (l acc : List Char), c ∉ l → splitListAux c l acc = [acc.reverse ++ l] := by
  intro l
  induction l with
  | nil => intro acc _; simp [splitListAux]
  | cons x xs ih =>
    intro acc h
    have hxc : ¬ x = c := fun hx => h (hx ▸ List.mem_cons_self x xs)
    have hxs : c ∉ xs := fun hc => h (List.mem_cons_of_mem x hc)
    simp only [splitListAux, if_neg hxc, ih (x :: acc) hxs, List.reverse_cons,
      List.append_assoc, List.cons_append, List.nil_append]

theorem splitListAux_append (c : Char) :
    ∀ (l1 l2 acc : List Char), c ∉ l1 →
      splitListAux c (l1 ++ c :: l2) acc = (acc.reverse ++ l1) :: splitListAux c l2 [] := by
  intro l1
  induction l1 with
  | nil => intro l2 acc _; simp [splitListAux]
  | cons x xs ih =>
    intro l2 acc h
    have hxc : ¬ x = c := fun hx => h (hx ▸ List.mem_cons_self x xs)
    have hxs : c ∉ xs := fun hc => h (List.mem_cons_of_mem x hc)
    simp only [List.cons_append, splitListAux, if_neg hxc, List.append_eq,
      ih l2 (x :: acc) hxs, List.reverse_cons, List.append_assoc, List.nil_append]

theorem splitChar_of_not_mem (c : Char) (s : String) (h : c ∉ s.toList) :
    splitChar c s = [s] := by
  unfold splitChar
  rw [splitListAux_of_not_mem c s.toList [] h]
  simp [mk_toList]

theorem splitChar_eq_pair (key value : String)
    (hk : '=' ∉ key.toList) (hv : '=' ∉ value.toList) :
    splitChar '=' (key ++ "=" ++ value) = [key, value] := by
  have ht : (key ++ "=" ++ value).toList = key.toList ++ '=' :: value.toList := by
    simp [toList_append]
  unfold splitChar
  rw [ht, splitListAux_append '=' key.toList value.toList [] hk,
    splitListAux_of_not_mem '=' value.toList [] hv]
  simp [mk_toList]

theorem dictGet_dictSet_self (d : Dict) (k : String) (v : PyVal) :
    dictGet (dictSet d k v) k = some v := by
  by_cases ha : d.any (fun p => p.1 == k)
  · simp only [dictSet, if_pos ha]
    induction d with
    | nil => simp at ha
    | cons p d ih =>
      by_cases hp : p.1 == k
      · simp [dictGet, List.find?, hp]
      · have ha' : d.any (fun p => p.1 == k) := by
          simpa [List.any_cons, hp] using ha
        simpa [dictGet, List.find?, hp] using ih ha'
  · simp only [dictSet, if_neg ha]
    induction d with
    | nil => simp [dictGet, List.find?]
    | cons p d ih =>
      have hp : ¬ (p.1 == k) := fun h => ha (by simp [List.any_cons, h])
      have ha' : ¬ d.any (fun p => p.1 == k) := fun h => ha (by simp [List.any_cons, h])
      simpa [dictGet, List.find?, hp] using ih ha'

theorem dictGet_dictSet_of_ne (d : Dict) (k k' : String) (v : PyVal) (h : k' ≠ k) :
    dictGet (dictSet d k v) k' = dictGet d k' := by
  by_cases ha : d.any (fun p => p.1 == k)
  · simp only [dictSet, if_pos ha]
    clear ha
    induction d with
    | nil => rfl
    | cons p d ih =>
      by_cases hp : p.1 == k
      · have hpk : p.1 = k := by simpa using hp
        have h1 : ¬ ((k : String) == k') := by simpa using fun hkk => h hkk.symm
        have h2 : ¬ (p.1 == k') := by
          rw [hpk]
          exact h1
        simpa [dictGet, List.find?, hp, h1, h2] using ih
      · by_cases hq : p.1 == k'
        · simp [dictGet, List.find?, hp, hq]
        · simpa [dictGet, List.find?, hp, hq] using ih
  · simp only [dictSet, if_neg ha]
    induction d with
    | nil =>
      have : ¬ ((k : String) == k') := by simpa using fun hkk => h hkk.symm
      simp [dictGet, List.find?, this]
    | cons p d ih =>
      have ha' : ¬ d.any (fun p => p.1 == k) := fun hx => ha (by simp [List.any_cons, hx])
      by_cases hq : p.1 == k'
      · simp [dictGet, List.find?, hq]
      · simpa [dictGet, List.find?, hq] using ih ha'

theorem dictGet_dictSet (d : Dict) (k k' : String) (v : PyVal) :
    dictGet (dictSet d k v) k' = if k' = k then some v else dictGet d k' := by
  by_cases h : k' = k
  · rw [if_pos h, h]
    exact dictGet_dictSet_self d k v
  · rw [if_neg h]
    exact dictGet_dictSet_of_ne d k k' v h

theorem processLine_ok_shape (c c2 : Dict) (line : String)
    (h : PDP.processLine c line = .ok c2) :
    c2 = c ∨ ∃ oid value const, splitChar '=' line = [oid, value] ∧
      OIDS_get (strDrop 3 oid) = some const ∧ c2 = dictSet c const (.str value) := by
  unfold PDP.processLine at h
  by_cases hl : line = ""
  · rw [if_pos hl] at h
    exact Or.inl (Except.ok.inj h).symm
  · rw [if_neg hl] at h
    cases hsp : splitChar '=' line with
    | nil => rw [hsp] at h; exact absurd h (by simp)
    | cons a t =>
      cases t with
      | nil => rw [hsp] at h; exact absurd h (by simp)
      | cons b t2 =>
        cases t2 with
        | cons x xs => rw [hsp] at h; exact absurd h (by simp)
        | nil =>
          rw [hsp] at h
          have h' : Except.ok (ε := PyErr)
              (match OIDS_get (strDrop 3 a) with
               | some const => dictSet c const (.str b)
               | none => c) = .ok c2 := h
          cases hg : OIDS_get (strDrop 3 a) with
          | none =>
            rw [hg] at h'
            exact Or.inl (Except.ok.inj h').symm
          | some const =>
            rw [hg] at h'
            exact Or.inr ⟨a, b, const, rfl, hg, (Except.ok.inj h').symm⟩

theorem processLines_get_of_no_write (k : String) :
    ∀ (lines : List String) (c c' : Dict),
      PDP.processLines c lines = .ok c' →
      (∀ line ∈ lines, ∀ oid value, splitChar '=' line = [oid, value] →
        OIDS_get (strDrop 3 oid) ≠ some k) →
      dictGet c' k = dictGet c k := by
  intro lines
  induction lines with
  | nil =>
    intro c c' h _
    exact congrArg (fun d => dictGet d k) (Except.ok.inj h).symm
  | cons l ls ih =>
    intro c c' h hno
    cases hpl : PDP.processLine c l with
    | error e =>
      simp only [PDP.processLines, hpl] at h
      exact absurd h (by simp)
    | ok c2 =>
      simp only [PDP.processLines, hpl] at h
      have h2 := ih c2 c' h (fun line hline => hno line (List.mem_cons_of_mem l hline))
      rcases processLine_ok_shape c c2 l hpl with rfl | ⟨oid, value, const, hsp, hg, rfl⟩
      · exact h2
      · have hkc : k ≠ const := fun he =>
          hno l (List.mem_cons_self l ls) oid value hsp (by rw [hg, he])
        rw [h2, dictGet_dictSet_of_ne c const k (PyVal.str value) hkc]

theorem processLines_values_str :
    ∀ (lines : List String) (c c' : Dict),
      PDP.processLines c lines = .ok c' →
      ∀ k v, dictGet c' k = some v → dictGet c k = some v ∨ v.isStr = true := by
  intro lines
  induction lines with
  | nil =>
    intro c c' h k v hv
    exact Or.inl (by rw [(Except.ok.inj h : c = c')]; exact hv)
  | cons l ls ih =>
    intro c c' h k v hv
    cases hpl : PDP.processLine c l with
    | error e =>
      simp only [PDP.processLines, hpl] at h
      exact absurd h (by simp)
    | ok c2 =>
      simp only [PDP.processLines, hpl] at h
      rcases ih c2 c' h k v hv with h2 | h2
      · rcases processLine_ok_shape c c2 l hpl with rfl | ⟨oid, value, const, _, _, rfl⟩
        · exact Or.inl h2
        · rw [dictGet_dictSet] at h2
          by_cases hkc : k = const
          · rw [if_pos hkc] at h2
            exact Or.inr (by rw [← (Option.some.inj h2)]; rfl)
          · rw [if_neg hkc] at h2
            exact Or.inl h2
      · exact Or.inr h2

theorem processLines_keeps_keys :
    ∀ (lines : List String) (c c' : Dict),
      PDP.processLines c lines = .ok c' →
      ∀ k v, dictGet c k = some v → ∃ v', dictGet c' k = some v' := by
  intro lines
  induction lines with
  | nil =>
    intro c c' h k v hv
    exact ⟨v, (Except.ok.inj h) ▸ hv⟩
  | cons l ls ih =>
    intro c c' h k v hv
    cases hpl : PDP.processLine c l with
    | error e =>
      simp only [PDP.processLines, hpl] at h
      exact absurd h (by simp)
    | ok c2 =>
      simp only [PDP.processLines, hpl] at h
      rcases processLine_ok_shape c c2 l hpl with rfl | ⟨oid, value, const, _, _, rfl⟩
      · exact ih c2 c' h k v hv
      · by_cases hkc : k = const
        · refine ih _ c' h k (PyVal.str value) ?_
          rw [dictGet_dictSet, if_pos hkc]
        · refine ih _ c' h k v ?_
          rw [dictGet_dictSet, if_neg hkc]
          exact hv

theorem toList_injective {a b : String} (h : a.toList = b.toList) : a = b := by
  rw [← mk_toList a, ← mk_toList b, h]

theorem append_left_cancel_str {a b c : String} (h : a ++ b = a ++ c) : b = c := by
  have h2 := congrArg String.toList h
  rw [toList_append, toList_append] at h2
  exact toList_injective (List.append_cancel_left h2)

theorem get_oid_mem (nm oid : String) (h : _get_oid nm = some oid) : (oid, nm) ∈ OIDS := by
  unfold _get_oid at h
  obtain ⟨p, hp, hfst⟩ := Option.map_eq_some'.mp h
  have hmem := List.mem_of_find?_eq_some hp
  have h2 : p.2 = nm := by simpa using List.find?_some hp
  rw [← hfst, ← h2]
  simpa using hmem

theorem OIDS_keys_nodup : (OIDS.map Prod.fst).Nodup := by decide

theorem mem_keys_unique {l : List (String × String)} (hnd : (l.map Prod.fst).Nodup)
    {o a b : String} (ha : (o, a) ∈ l) (hb : (o, b) ∈ l) : a = b := by
  induction l with
  | nil => cases ha
  | cons p t ih =>
    simp only [List.map_cons, List.nodup_cons] at hnd
    rcases List.mem_cons.mp ha with hpa | ha'
    · rcases List.mem_cons.mp hb with hpb | hb'
      · rw [← hpa] at hpb
        exact (Prod.mk.injEq _ _ _ _ ▸ hpb.symm).2
      · exact absurd (List.mem_map.mpr ⟨(o, b), hb', by rw [← hpa]⟩) hnd.1
    · rcases List.mem_cons.mp hb with hpb | hb'
      · exact absurd (List.mem_map.mpr ⟨(o, a), ha', by rw [← hpb]⟩) hnd.1
      · exact ih hnd.2 ha' hb'

theorem get_oid_inj {k1 k2 oid : String}
    (h1 : _get_oid k1 = some oid) (h2 : _get_oid k2 = some oid) : k1 = k2 :=
  mem_keys_unique OIDS_keys_nodup (get_oid_mem k1 oid h1) (get_oid_mem k2 oid h2)

theorem get_oid_eq_none (nm : String) (h : nm ∉ OIDS.map Prod.snd) : _get_oid nm = none := by
  unfold _get_oid
  have hfind : OIDS.find? (fun p => p.2 == nm) = none :=
    List.find?_eq_none.mpr (fun x hx hbeq =>
      h (List.mem_map.mpr ⟨x, hx, by simpa using hbeq⟩))
  rw [hfind]
  rfl

theorem dictSet_of_not_mem_keys (d : Dict) (k : String) (v : PyVal)
    (h : k ∉ d.map Prod.fst) : dictSet d k v = d ++ [(k, v)] := by
  unfold dictSet
  rw [if_neg]
  intro hx
  obtain ⟨p, hp, hbeq⟩ := List.any_eq_true.mp hx
  exact h (List.mem_map.mpr ⟨p, hp, by simpa using hbeq⟩)

/-- Resolution of one `kwargs` item by `PDP._set`: `none` when the field name
is unknown, else the `("OID" + oid, value)` entry it adds to `data`. -/
def resolveKV (kv : String × PyVal) : Option (String × PyVal) :=
  (_get_oid kv.1).map (fun oid => ("OID" ++ oid, kv.2))

theorem set_data_foldl_eq (rest : List (String × PyVal)) :
    ∀ d : Dict,
      (∀ kv ∈ rest, ∀ oid, _get_oid kv.1 = some oid → ("OID" ++ oid) ∉ d.map Prod.fst) →
      (rest.map Prod.fst).Nodup →
      rest.foldl
        (fun d kv =>
          match _get_oid kv.1 with
          | some oid => dictSet d ("OID" ++ oid) kv.2
          | none => d)
        d = d ++ rest.filterMap resolveKV := by
  induction rest with
  | nil => intro d _ _; simp
  | cons kv rest ih =>
    intro d hfresh hnd
    simp only [List.map_cons, List.nodup_cons] at hnd
    cases hg : _get_oid kv.1 with
    | none =>
      have hres : resolveKV kv = none := by simp [resolveKV, hg]
      rw [List.filterMap_cons_none hres, List.foldl_cons]
      simp only [hg]
      exact ih d (fun kv2 h2 => hfresh kv2 (List.mem_cons_of_mem kv h2)) hnd.2
    | some oid =>
      have hfr : ("OID" ++ oid) ∉ d.map Prod.fst :=
        hfresh kv (List.mem_cons_self kv rest) oid hg
      have hres : resolveKV kv = some ("OID" ++ oid, kv.2) := by simp [resolveKV, hg]
      rw [List.filterMap_cons_some hres, List.foldl_cons]
      simp only [hg]
      rw [dictSet_of_not_mem_keys d _ _ hfr]
      rw [ih (d ++ [("OID" ++ oid, kv.2)]) ?_ hnd.2]
      · simp
      · intro kv2 h2 oid2 hg2
        rw [List.map_append]
        intro hmem
        rcases List.mem_append.mp hmem with hd | hone
        · exact hfresh kv2 (List.mem_cons_of_mem kv h2) oid2 hg2 hd
        · have hoid : oid2 = oid := by
            have : "OID" ++ oid2 = "OID" ++ oid := by simpa using hone
            exact append_left_cancel_str this
          have : kv2.1 = kv.1 := get_oid_inj hg2 (hoid ▸ hg)
          exact hnd.1 (List.mem_map.mpr ⟨kv2, h2, this⟩)

theorem set_data_eq_filterMap (pairs : List (String × PyVal))
    (hnd : (pairs.map Prod.fst).Nodup) :
    PDP.set_data pairs = pairs.filterMap resolveKV := by
  have h := set_data_foldl_eq pairs [] (by simp) hnd
  simpa [PDP.set_data] using h

theorem set_data_filter_resolved (pairs : List (String × PyVal)) :
    PDP.set_data (pairs.filter (fun kv => (_get_oid kv.1).isSome)) = PDP.set_data pairs := by
  unfold PDP.set_data
  suffices h : ∀ (rest : List (String × PyVal)) (d : Dict),
      (rest.filter (fun kv => (_get_oid kv.1).isSome)).foldl
        (fun d kv =>
          match _get_oid kv.1 with
          | some oid => dictSet d ("OID" ++ oid) kv.2
          | none => d)
        d =
      rest.foldl
        (fun d kv =>
          match _get_oid kv.1 with
          | some oid => dictSet d ("OID" ++ oid) kv.2
          | none => d)
        d by
    exact h pairs []
  intro rest
  induction rest with
  | nil => intro d; rfl
  | cons kv rest ih =>
    intro d
    cases hg : _get_oid kv.1 with
    | none =>
      have hp : ((_get_oid kv.1).isSome : Bool) = false := by rw [hg]; rfl
      rw [List.filter_cons_of_neg (by simpa using hp), List.foldl_cons]
      simp only [hg]
      exact ih d
    | some oid =>
      have hp : ((_get_oid kv.1).isSome : Bool) = true := by rw [hg]; rfl
      rw [List.filter_cons_of_pos (by simpa using hp), List.foldl_cons, List.foldl_cons]
      simp only [hg]
      exact ih _

/-! Claim theorems. -/

/-- C1 counterexample: the response body `"junk"` is a single nonempty line
with no `=` separator, and `update` raises `ValueError` on it instead of
skipping it, refuting the claim that such a line never raises. -/
theorem C1_counterexample :
    PDP.update [("DevName", PyVal.str "X")] "junk" = .error PyErr.valueError := by
  decide

/-- C1 (amended): a response line with no `=` separator is skipped (with the
cache unchanged) only when the line is empty, because of the `if line:` guard;
a nonempty line with no `=` makes the `oid, value = line.split('=')` unpacking
raise `ValueError` out of the refresh. -/
theorem C1_no_separator (c : Dict) (line : String) (h : '=' ∉ line.toList) :
    (line = "" → PDP.processLine c line = .ok c) ∧
    (line ≠ "" → PDP.processLine c line = .error PyErr.valueError) := by
  constructor
  · intro hl
    rw [hl]
    rfl
  · intro hne
    unfold PDP.processLine
    rw [if_neg hne, splitChar_of_not_mem '=' line h]

/-- C1 witness: the amended claim evaluated on the nonempty separator-free
line `"garbage"` over a one-entry cache. -/
theorem C1_witness :
    PDP.processLine [("AverageTemp", PyVal.str "709")] "garbage" = .error PyErr.valueError :=
  (C1_no_separator [("AverageTemp", PyVal.str "709")] "garbage" (by decide)).2 (by decide)

/-- C2 counterexample: the `setback_heat` setter with argument `68.3` stores
`PyVal.int 683` — not a string — under `SetbackHeat`, refuting the claim that
every operation writing to the cache stores a raw string. -/
theorem C2_counterexample :
    dictGet (PDP.setback_heat_set [] (68.3 : ℚ)).1 "SetbackHeat" = some (PyVal.int 683) ∧
    (PyVal.int 683).isStr = false := by
  have ht : truncQ ((68.3 : ℚ) * 10) = 683 := by norm_num [truncQ]
  constructor
  · simp only [PDP.setback_heat_set, ht]
    decide
  · rfl

/-- C2 (amended): every value `update` (refresh) adds to the cache is a raw
string — any cached value after a successful refresh was either already cached
or is a string — but the `setback_heat` setter stores the Python integer
`int(val * 10)` in the cache, so not every cache-writing operation stores a
string. -/
theorem C2_cache_values (c : Dict) (body : String) (c' : Dict) (k : String) (v : PyVal)
    (val : ℚ) (h : PDP.update c body = .ok c') (hv : dictGet c' k = some v) :
    (dictGet c k = some v ∨ v.isStr = true) ∧
    dictGet (PDP.setback_heat_set c val).1 "SetbackHeat" =
      some (PyVal.int (truncQ (val * 10))) := by
  constructor
  · exact processLines_values_str (splitChar '&' body) c c' h k v hv
  · exact dictGet_dictSet_self c "SetbackHeat" _

/-- C2 witness: the amended claim evaluated at the refresh of an empty cache
with response `"OID1.2=X"` and at a setter call with value `0`. -/
theorem C2_witness :
    (dictGet ([] : Dict) "DevName" = some (PyVal.str "X") ∨ (PyVal.str "X").isStr = true) ∧
    dictGet (PDP.setback_heat_set [] (0 : ℚ)).1 "SetbackHeat" =
      some (PyVal.int (truncQ ((0 : ℚ) * 10))) :=
  C2_cache_values [] "OID1.2=X" [("DevName", PyVal.str "X")] "DevName" (PyVal.str "X") 0
    (by decide) (by decide)

/-- C3: setting the heating setback to `68.3` stores the integer `683` under
`SetbackHeat` and posts the body `"OID4.1.5=683&submit=Submit"`, which carries
the token `OID4.1.5=683`; truncation toward zero makes `68.05` store `680`,
not `681`; and in general the setter caches `PyVal.int (truncQ (val * 10))`.
Python floats are modelled as exact rationals, which agrees with IEEE double
arithmetic on both quoted inputs. -/
theorem C3_setback_write :
    (PDP.setback_heat_set [] (68.3 : ℚ)).1 = [("SetbackHeat", PyVal.int 683)] ∧
    (PDP.setback_heat_set [] (68.3 : ℚ)).2 = "OID4.1.5=683&submit=Submit" ∧
    truncQ ((68.05 : ℚ) * 10) = 680 ∧
    (∀ (c : Dict) (val : ℚ),
      dictGet (PDP.setback_heat_set c val).1 "SetbackHeat" =
        some (PyVal.int (truncQ (val * 10)))) := by
  have ht : truncQ ((68.3 : ℚ) * 10) = 683 := by norm_num [truncQ]
  refine ⟨?_, ?_, ?_, ?_⟩
  · simp only [PDP.setback_heat_set, ht]
    decide
  · simp only [PDP.setback_heat_set, ht]
    decide
  · norm_num [truncQ, Int.tdiv]
  · intro c val
    exact dictGet_dictSet_self c "SetbackHeat" _

/-- C4: a well-formed pair `key=value` has the first three characters of its
key stripped and looked up; a recognized identifier stores the raw value under
the field name (overwriting, as the `dictGet` conjunct shows), an unrecognized
one leaves the cache unchanged; and refreshing an empty cache with
`"OID1.2=Kitchen&OID4.1.13=712"` makes the name accessor return `"Kitchen"`
and the temperature accessor return `71.2`. -/
theorem C4_refresh_parse :
    (∀ (c : Dict) (key value const : String), '=' ∉ key.toList → '=' ∉ value.toList →
      OIDS_get (strDrop 3 key) = some const →
      PDP.processLine c (key ++ "=" ++ value) = .ok (dictSet c const (PyVal.str value)) ∧
        dictGet (dictSet c const (PyVal.str value)) const = some (PyVal.str value)) ∧
    (∀ (c : Dict) (key value : String), '=' ∉ key.toList → '=' ∉ value.toList →
      OIDS_get (strDrop 3 key) = none →
      PDP.processLine c (key ++ "=" ++ value) = .ok c) ∧
    PDP.update [] "OID1.2=Kitchen&OID4.1.13=712" =
      .ok [("DevName", PyVal.str "Kitchen"), ("AverageTemp", PyVal.str "712")] ∧
    PDP.name [("DevName", PyVal.str "Kitchen"), ("AverageTemp", PyVal.str "712")] =
      .ok (PyVal.str "Kitchen") ∧
    PDP.cur_temp [("DevName", PyVal.str "Kitchen"), ("AverageTemp", PyVal.str "712")] =
      .ok (71.2 : ℚ) := by
  have hne : ∀ key value : String, key ++ "=" ++ value ≠ "" := by
    intro key value he
    have hlist : (key ++ "=" ++ value).toList = key.toList ++ '=' :: value.toList := by
      simp [toList_append]
    rw [he] at hlist
    simp at hlist
  refine ⟨?_, ?_, by decide, by decide, ?_⟩
  · intro c key value const hk hv hgod
    have hred : PDP.processLine c (key ++ "=" ++ value) =
        Except.ok (ε := PyErr)
          (match OIDS_get (strDrop 3 key) with
           | some cst => dictSet c cst (PyVal.str value)
           | none => c) := by
      unfold PDP.processLine
      rw [if_neg (hne key value), splitChar_eq_pair key value hk hv]
    constructor
    · rw [hred, hgod]
    · exact dictGet_dictSet_self c const (PyVal.str value)
  · intro c key value hk hv hod
    have hred : PDP.processLine c (key ++ "=" ++ value) =
        Except.ok (ε := PyErr)
          (match OIDS_get (strDrop 3 key) with
           | some cst => dictSet c cst (PyVal.str value)
           | none => c) := by
      unfold PDP.processLine
      rw [if_neg (hne key value), splitChar_eq_pair key value hk hv]
    rw [hred, hod]
  · have h : PDP.cur_temp [("DevName", PyVal.str "Kitchen"), ("AverageTemp", PyVal.str "712")] =
        .ok ((1 * ((712 : Nat) : ℚ)) / 10) := rfl
    rw [h]
    norm_num

/-- C4 witness: the recognized-pair conjunct evaluated on the pair
`OID1.2=Kitchen` over an empty cache. -/
theorem C4_witness :
    PDP.processLine [] ("OID1.2" ++ "=" ++ "Kitchen") =
      .ok (dictSet [] "DevName" (PyVal.str "Kitchen")) :=
  (C4_refresh_parse.1 [] "OID1.2" "Kitchen" "DevName" (by decide) (by decide) (by decide)).1

/-- C5: each accessor (current temperature, heating setback, HVAC state,
device name, fan state) on a cache missing its field fails with the
`KeyError` of that field's key — a distinguishable key-not-found condition,
never a default value. -/
theorem C5_uncached_accessors (c : Dict) :
    (dictGet c "AverageTemp" = none → PDP.cur_temp c = .error (PyErr.keyError "AverageTemp")) ∧
    (dictGet c "SetbackHeat" = none → PDP.setback_heat c = .error (PyErr.keyError "SetbackHeat")) ∧
    (dictGet c "HvacState" = none → PDP.hvac_state c = .error (PyErr.keyError "HvacState")) ∧
    (dictGet c "DevName" = none → PDP.name c = .error (PyErr.keyError "DevName")) ∧
    (dictGet c "FanState" = none → PDP.fan_state c = .error (PyErr.keyError "FanState")) := by
  refine ⟨?_, ?_, ?_, ?_, ?_⟩ <;> intro h
  · simp [PDP.cur_temp, h]
  · simp [PDP.setback_heat, h]
  · simp [PDP.hvac_state, h]
  · simp [PDP.name, h]
  · simp [PDP.fan_state, h]

/-- C5 witness: all five accessors evaluated on the empty (never-refreshed)
cache. -/
theorem C5_witness :
    PDP.cur_temp [] = .error (PyErr.keyError "AverageTemp") ∧
    PDP.setback_heat [] = .error (PyErr.keyError "SetbackHeat") ∧
    PDP.hvac_state [] = .error (PyErr.keyError "HvacState") ∧
    PDP.name [] = .error (PyErr.keyError "DevName") ∧
    PDP.fan_state [] = .error (PyErr.keyError "FanState") :=
  ⟨(C5_uncached_accessors []).1 rfl, (C5_uncached_accessors []).2.1 rfl,
   (C5_uncached_accessors []).2.2.1 rfl, (C5_uncached_accessors []).2.2.2.1 rfl,
   (C5_uncached_accessors []).2.2.2.2 rfl⟩

/-- C6: for `kwargs` with distinct field names, the write body is the
`&`-joined form-encoded tokens of exactly the resolvable pairs followed by
`&submit=Submit`; every resolvable pair contributes its `OID<id>=<value>`
token; and dropping the unresolvable pairs leaves the built `data` dict (hence
the body) unchanged — they are dropped silently. -/
theorem C6_set_fields (pairs : List (String × PyVal)) (hnd : (pairs.map Prod.fst).Nodup) :
    PDP.set_body pairs =
      String.intercalate "&"
        ((pairs.filterMap resolveKV).map
          (fun kv => quotePlus kv.1 ++ "=" ++ quotePlus (pyStr kv.2))) ++ "&submit=Submit" ∧
    (∀ (k : String) (v : PyVal) (oid : String), (k, v) ∈ pairs → _get_oid k = some oid →
      (quotePlus ("OID" ++ oid) ++ "=" ++ quotePlus (pyStr v)) ∈
        (PDP.set_data pairs).map (fun kv => quotePlus kv.1 ++ "=" ++ quotePlus (pyStr kv.2))) ∧
    PDP.set_data (pairs.filter (fun kv => (_get_oid kv.1).isSome)) = PDP.set_data pairs := by
  refine ⟨?_, ?_, set_data_filter_resolved pairs⟩
  · unfold PDP.set_body urlencode
    rw [set_data_eq_filterMap pairs hnd]
  · intro k v oid hmem hg
    refine List.mem_map.mpr ⟨("OID" ++ oid, v), ?_, rfl⟩
    rw [set_data_eq_filterMap pairs hnd]
    exact List.mem_filterMap.mpr ⟨(k, v), hmem, by simp [resolveKV, hg]⟩

/-- C6 witness: the claim evaluated on one resolvable pair (`SetbackHeat`) and
one unresolvable pair (`Bogus`). -/
theorem C6_witness :
    PDP.set_body [("SetbackHeat", PyVal.int 683), ("Bogus", PyVal.str "x")] =
      String.intercalate "&"
        (([("SetbackHeat", PyVal.int 683), ("Bogus", PyVal.str "x")].filterMap resolveKV).map
          (fun kv => quotePlus kv.1 ++ "=" ++ quotePlus (pyStr kv.2))) ++ "&submit=Submit" ∧
    (quotePlus ("OID" ++ "4.1.5") ++ "=" ++ quotePlus (pyStr (PyVal.int 683))) ∈
      (PDP.set_data [("SetbackHeat", PyVal.int 683), ("Bogus", PyVal.str "x")]).map
        (fun kv => quotePlus kv.1 ++ "=" ++ quotePlus (pyStr kv.2)) := by
  have h := C6_set_fields [("SetbackHeat", PyVal.int 683), ("Bogus", PyVal.str "x")] (by decide)
  exact ⟨h.1, h.2.1 "SetbackHeat" (PyVal.int 683) "4.1.5" (by decide) (by decide)⟩

/-- C7: for every entry of the OID table, `_get_oid` on the field name returns
that entry's identifier and the table maps the identifier back to the name
(the table is bijective between names and identifiers); for every name not in
the table, `_get_oid` returns `none` without raising. -/
theorem C7_lookup_bijective :
    (∀ p ∈ OIDS, _get_oid p.2 = some p.1 ∧ OIDS_get p.1 = some p.2) ∧
    (∀ nm : String, nm ∉ OIDS.map Prod.snd → _get_oid nm = none) := by
  constructor
  · decide
  · exact get_oid_eq_none

/-- C7 witness: the round trip evaluated at the `SetbackHeat` entry, and the
absent signal at a name outside the table. -/
theorem C7_witness :
    (_get_oid "SetbackHeat" = some "4.1.5" ∧ OIDS_get "4.1.5" = some "SetbackHeat") ∧
    _get_oid "NoSuchField" = none :=
  ⟨C7_lookup_bijective.1 ("4.1.5", "SetbackHeat") (by decide),
   C7_lookup_bijective.2 "NoSuchField" (by decide)⟩

/-- C8: splitting the bulk query on `&` yields exactly the per-entry tokens
`OID<id>=` in table order — one token per OID table entry, each with an empty
value and no trailing value. -/
theorem C8_bulk_query :
    splitChar '&' _all_oids = OIDS.map (fun p => "OID" ++ p.1 ++ "=") ∧
    (splitChar '&' _all_oids).length = OIDS.length := by
  constructor <;> decide

/-- C9: with any value cached under `FanState`, the accessor returns `"On"`
exactly when the raw value equals the string `"2"` and `"Off"` otherwise, and
its result is always one of those two strings. -/
theorem C9_fan_state (c : Dict) (v : PyVal) (h : dictGet c "FanState" = some v) :
    PDP.fan_state c = .ok (if v = PyVal.str "2" then "On" else "Off") ∧
    (PDP.fan_state c = .ok "On" ∨ PDP.fan_state c = .ok "Off") := by
  have h1 : PDP.fan_state c = .ok (if v = PyVal.str "2" then "On" else "Off") := by
    simp [PDP.fan_state, h]
  refine ⟨h1, ?_⟩
  by_cases hv : v = PyVal.str "2"
  · exact Or.inl (by rw [h1, if_pos hv])
  · exact Or.inr (by rw [h1, if_neg hv])

/-- C9 witness: the fan state accessor evaluated on cached raw values `"2"`
and `"1"`. -/
theorem C9_witness :
    PDP.fan_state [("FanState", PyVal.str "2")] = .ok "On" ∧
    PDP.fan_state [("FanState", PyVal.str "1")] = .ok "Off" := by
  constructor
  · have h := (C9_fan_state [("FanState", PyVal.str "2")] (PyVal.str "2") (by decide)).1
    rw [h]
    decide
  · have h := (C9_fan_state [("FanState", PyVal.str "1")] (PyVal.str "1") (by decide)).1
    rw [h]
    decide

/-- C10: a successful refresh never removes a cache key — every key already
cached still has a value afterwards — and any key for which no response pair
resolves keeps exactly its previous value. -/
theorem C10_refresh_frame (c : Dict) (body : String) (c' : Dict) (k : String)
    (h : PDP.update c body = .ok c')
    (hk : ∀ line ∈ splitChar '&' body, ∀ oid value, splitChar '=' line = [oid, value] →
      OIDS_get (strDrop 3 oid) ≠ some k) :
    dictGet c' k = dictGet c k ∧
    (∀ (k2 : String) (v : PyVal), dictGet c k2 = some v → ∃ v2, dictGet c' k2 = some v2) := by
  constructor
  · exact processLines_get_of_no_write k (splitChar '&' body) c c' h hk
  · intro k2 v hv
    exact processLines_keeps_keys (splitChar '&' body) c c' h k2 v hv

/-- C10 witness: a refresh whose response carries only `AverageTemp` leaves
the previously cached `DevName` value unchanged. -/
theorem C10_witness :
    dictGet [("DevName", PyVal.str "X"), ("AverageTemp", PyVal.str "700")] "DevName" =
      dictGet [("DevName", PyVal.str "X")] "DevName" := by
  have hk : ∀ line ∈ splitChar '&' "OID4.1.13=700", ∀ oid value,
      splitChar '=' line = [oid, value] → OIDS_get (strDrop 3 oid) ≠ some "DevName" := by
    intro line hline oid value hsv
    have hl : splitChar '&' "OID4.1.13=700" = ["OID4.1.13=700"] := by decide
    rw [hl, List.mem_singleton] at hline
    subst hline
    have hs : splitChar '=' "OID4.1.13=700" = ["OID4.1.13", "700"] := by decide
    rw [hs] at hsv
    obtain ⟨h1, -⟩ := List.cons.inj hsv
    rw [← h1]
    decide
  exact (C10_refresh_frame [("DevName", PyVal.str "X")] "OID4.1.13=700"
    [("DevName", PyVal.str "X"), ("AverageTemp", PyVal.str "700")] "DevName"
    (by decide) hk).1

end Proliphix
